import Mathlib

/-!
Verification of the 3d-point initialization core of `bundle_adjust`
(`bundle_adjust/feature_tracks/ft_triangulate.py`).

The development is a shallow embedding of the Python source:

* real arithmetic is modelled exactly over `ℚ` (the source uses numpy floats;
  the properties verified here are the exact-arithmetic statements);
* a numpy NaN entry of the correspondence matrix is modelled as `Option.none`;
* a raised Python exception is modelled as `Except.error`;
* the two pairwise triangulation backends (`cv2.triangulatePoints` inside
  `linear_triangulation_multiple_pts`, and `stereo_corresp_to_xyz` plus the
  geodetic conversion inside `rpc_triangulation`) are external collaborators of
  the repository.  They triangulate each correspondence independently, so they
  are modelled as abstract per-correspondence oracles
  `Camera → Camera → List Val → List Val → Pt3` over an abstract `Camera` type.
-/

/-- a 3d point (x, y, z), with exact rational coordinates. -/
abbrev Pt3 : Type := ℚ × ℚ × ℚ

/-- the zero 3d point, the value `np.zeros((n_pts, 3))` fills `avg_pts3d` with. -/
def p3zero : Pt3 := (0, 0, 0)

/-- componentwise addition of 3d points. -/
def p3add (a b : Pt3) : Pt3 := (a.1 + b.1, a.2.1 + b.2.1, a.2.2 + b.2.2)

/-- scalar multiplication of a 3d point. -/
def p3smul (q : ℚ) (a : Pt3) : Pt3 := (q * a.1, q * a.2.1, q * a.2.2)

/-- componentwise sum of a list of 3d points. -/
def p3sum (l : List Pt3) : Pt3 :=
  ((l.map (fun v => v.1)).sum, (l.map (fun v => v.2.1)).sum, (l.map (fun v => v.2.2)).sum)

/-- arithmetic mean of a list of 3d points; the mean of the empty list is the
zero sentinel, matching the initial value of `avg_pts3d`. -/
def meanPt3 (l : List Pt3) : Pt3 :=
  if l.length = 0 then p3zero else p3smul (1 / (l.length : ℚ)) (p3sum l)

/-- one entry of the correspondence matrix: `none` models numpy's NaN
missing-value marker. -/
abbrev Val : Type := Option ℚ

/-- the correspondence matrix `C`, a rectangular numeric array of shape
`(2 * n_cam, n_pts)` (spec: row pair `(2k, 2k+1)` holds the pixel coordinates
of each track in camera `k`, or NaN).  `entry r t` is the entry at row `r`,
column `t`; the array being rectangular is built into this representation. -/
structure CMat where
  n_cam : ℕ
  n_pts : ℕ
  entry : ℕ → ℕ → Val

/-- Python indexing of a sequence of length `n` at a possibly negative index:
nonnegative indices must be `< n`, negative indices wrap around by `+ n`;
anything else raises IndexError (modelled as `none`). -/
def pyIdx (n : ℕ) (i : ℤ) : Option ℕ :=
  if 0 ≤ i then (if i < (n : ℤ) then some i.toNat else none)
  else (if 0 ≤ i + (n : ℤ) then some (i + (n : ℤ)).toNat else none)

/-- Python indexing of a list (`cameras[c_i]`), with wrap-around for negative
indices and IndexError (`none`) when out of range. -/
def pyGetList {α : Type} (l : List α) (i : ℤ) : Option α :=
  match pyIdx l.length i with
  | some k => l.get? k
  | none => none

/-- resolution of one endpoint of a Python slice over a sequence of length `n`:
negative endpoints are shifted by `n` and clamped below at 0, nonnegative
endpoints are clamped above at `n`. -/
def pySliceEnd (n : ℕ) (i : ℤ) : ℕ :=
  if i < 0 then (i + (n : ℤ)).toNat else min i.toNat n

/-- row indices selected by the Python slice `l[a:b]` over `n` rows (slices
never raise). -/
def pySliceIdx (n : ℕ) (a b : ℤ) : List ℕ :=
  List.range' (pySliceEnd n a) (pySliceEnd n b - pySliceEnd n a)

/-- row `k` of the observation mask `mask = ~np.isnan(C[::2])`: true at track
`t` when the first pixel coordinate of camera `k` is not NaN. -/
def maskAt (C : CMat) (k t : ℕ) : Bool := (C.entry (2 * k) t).isSome

/-- the range guard of the pair loop of `init_pts3d`:
`if c_i < n_cam and c_j < n_cam` — it checks the upper bound only. -/
def pairInRange (n_cam : ℕ) (ci cj : ℤ) : Bool :=
  decide (ci < (n_cam : ℤ)) && decide (cj < (n_cam : ℤ))

/-- one iteration of the pair loop of `init_pts3d`: given the pair
`(c_i, c_j)`, returns the list of `(track, triangulated point)` contributions
this pair makes (`[]` when the pair is skipped by the range guard or
co-observes no track), or `Except.error` when the iteration raises.
The steps mirror the source line by line: range guard; `mask[c_i]`/`mask[c_j]`
lookups (Python indexing, IndexError when unresolvable); `pt_indices` as the
tracks observed in both cameras; the observation rows extracted with the
Python slices `C[2*c_i : 2*c_i+2]` and `C[2*c_j : 2*c_j+2]`; the empty-track
`continue`; the `cameras[c_i]`/`cameras[c_j]` lookups; and the dispatch
`if cam_model in ["affine", "perspective"]` choosing the linear backend, any
other string falling to the rpc backend. -/
def processPair {Camera : Type}
    (lin rpc : Camera → Camera → List Val → List Val → Pt3)
    (cam_model : String) (C : CMat) (cameras : List Camera)
    (ci cj : ℤ) : Except String (List (ℕ × Pt3)) :=
  if pairInRange C.n_cam ci cj then
    match pyIdx C.n_cam ci, pyIdx C.n_cam cj with
    | some mi, some mj =>
      let pt_indices := (List.range C.n_pts).filter (fun t => maskAt C mi t && maskAt C mj t)
      let rows_i := pySliceIdx (2 * C.n_cam) (2 * ci) (2 * ci + 2)
      let rows_j := pySliceIdx (2 * C.n_cam) (2 * cj) (2 * cj + 2)
      if pt_indices.isEmpty then Except.ok []
      else
        match pyGetList cameras ci, pyGetList cameras cj with
        | some cam_i, some cam_j =>
          Except.ok (pt_indices.map (fun t =>
            (t, if cam_model = "affine" ∨ cam_model = "perspective"
                then lin cam_i cam_j (rows_i.map (fun r => C.entry r t))
                      (rows_j.map (fun r => C.entry r t))
                else rpc cam_i cam_j (rows_i.map (fun r => C.entry r t))
                      (rows_j.map (fun r => C.entry r t)))))
        | _, _ => Except.error ("IndexError: list index out of range")
    | _, _ => Except.error ("IndexError: index out of bounds")
  else Except.ok []

/-- the inner running-mean update of `init_pts3d`:
`count[t] += 1.0; avg[t] = ((count[t] - 1) * avg[t] + new_v[t]) / count[t]`.
The numpy update is vectorized over the index set `pt_indices`, whose entries
are pairwise distinct; it is modelled here index by index, each contribution
paired with its track. -/
def update_avg_pts3d (avg : List Pt3) (count : List ℚ) (contribs : List (ℕ × Pt3)) :
    List Pt3 × List ℚ :=
  contribs.foldl (fun ac e =>
    let c := ac.2.getD e.1 0 + 1
    (ac.1.set e.1 (p3smul (1 / c) (p3add (p3smul (c - 1) (ac.1.getD e.1 p3zero)) e.2)),
     ac.2.set e.1 c)) (avg, count)

/-- the mutable state threaded through the pair loop of `init_pts3d`: the
correspondence matrix and camera list it reads, and the accumulators
`avg_pts3d` and `n_pairs` it writes. -/
structure AggState (Camera : Type) where
  C : CMat
  cameras : List Camera
  avg : List Pt3
  count : List ℚ

/-- the pair loop of `init_pts3d`: processes the pairs in list order, folding
each pair's contributions into the accumulators; a raised exception aborts. -/
def runPairs {Camera : Type}
    (lin rpc : Camera → Camera → List Val → List Val → Pt3)
    (cam_model : String) (pairs : List (ℤ × ℤ)) (s : AggState Camera) :
    Except String (AggState Camera) :=
  match pairs with
  | [] => Except.ok s
  | p :: rest =>
    match processPair lin rpc cam_model s.C s.cameras p.1 p.2 with
    | Except.error e => Except.error e
    | Except.ok contribs =>
      let u := update_avg_pts3d s.avg s.count contribs
      runPairs lin rpc cam_model rest { s with avg := u.1, count := u.2 }

/-- the state at entry of the pair loop: `avg_pts3d = np.zeros((n_pts, 3))`
and `n_pairs = np.zeros(n_pts)`, freshly allocated from the inputs. -/
def initState {Camera : Type} (C : CMat) (cameras : List Camera) : AggState Camera :=
  { C := C, cameras := cameras,
    avg := List.replicate C.n_pts p3zero, count := List.replicate C.n_pts 0 }

/-- the function `init_pts3d`, kept together with its final state (used to express that the
correspondence matrix is left unchanged). -/
def init_pts3d_run {Camera : Type}
    (lin rpc : Camera → Camera → List Val → List Val → Pt3)
    (C : CMat) (cameras : List Camera) (cam_model : String)
    (pairs : List (ℤ × ℤ)) : Except String (AggState Camera) :=
  runPairs lin rpc cam_model pairs (initState C cameras)

/-- the public operation `init_pts3d(C, cameras, cam_model, pairs_to_triangulate)`: the returned
`avg_pts3d` (the `verbose` printing is observability only and is not
modelled). -/
def init_pts3d {Camera : Type}
    (lin rpc : Camera → Camera → List Val → List Val → Pt3)
    (C : CMat) (cameras : List Camera) (cam_model : String)
    (pairs : List (ℤ × ℤ)) : Except String (List Pt3) :=
  Except.map (fun s => s.avg) (init_pts3d_run lin rpc C cameras cam_model pairs)

/-- the contributions of one pair, read off `processPair` (empty when the pair
raises; used only to state properties of successful runs). -/
def pairContribs {Camera : Type}
    (lin rpc : Camera → Camera → List Val → List Val → Pt3)
    (cam_model : String) (C : CMat) (cameras : List Camera)
    (p : ℤ × ℤ) : List (ℕ × Pt3) :=
  match processPair lin rpc cam_model C cameras p.1 p.2 with
  | Except.ok l => l
  | Except.error _ => []

/-- the values a contribution list assigns to track `t`. -/
def contribsFor (l : List (ℕ × Pt3)) (t : ℕ) : List Pt3 :=
  l.filterMap (fun e => if e.1 = t then some e.2 else none)

/-- the per-pair triangulated estimates for track `t`, over exactly the pairs
of `pairs` that pass the range guard and co-observe `t`, in list order. -/
def trackContribs {Camera : Type}
    (lin rpc : Camera → Camera → List Val → List Val → Pt3)
    (cam_model : String) (C : CMat) (cameras : List Camera)
    (pairs : List (ℤ × ℤ)) (t : ℕ) : List Pt3 :=
  pairs.flatMap (fun p => contribsFor (pairContribs lin rpc cam_model C cameras p) t)

/-! ### Generic list helpers -/

theorem getD_set_self {α : Type} (l : List α) (i : ℕ) (hi : i < l.length) (a d : α) :
    (l.set i a).getD i d = a := by
  rw [List.getD_eq_getElem _ _ (by simpa using hi)]
  exact List.getElem_set_self _

theorem getD_set_ne {α : Type} (l : List α) (i j : ℕ) (hne : i ≠ j) (a d : α) :
    (l.set i a).getD j d = l.getD j d := by
  by_cases hj : j < l.length
  · rw [List.getD_eq_getElem _ _ (by simpa using hj), List.getD_eq_getElem _ _ hj]
    exact List.getElem_set_ne hne _
  · rw [List.getD_eq_getElem?_getD, List.getD_eq_getElem?_getD,
      List.getElem?_eq_none (by simpa using Nat.le_of_not_lt hj),
      List.getElem?_eq_none (Nat.le_of_not_lt hj)]

theorem getD_replicate {α : Type} (n i : ℕ) (hi : i < n) (x d : α) :
    (List.replicate n x).getD i d = x := by
  rw [List.getD_eq_getElem _ _ (by simpa using hi)]
  exact List.getElem_replicate _ _

theorem list_eq_of_getD {α : Type} (d : α) (l₁ l₂ : List α) (hlen : l₁.length = l₂.length)
    (h : ∀ t, t < l₁.length → l₁.getD t d = l₂.getD t d) : l₁ = l₂ := by
  refine List.ext_getElem hlen (fun n h₁ h₂ => ?_)
  have := h n h₁
  rwa [List.getD_eq_getElem _ _ h₁, List.getD_eq_getElem _ _ h₂] at this

/-! ### Algebra of `Pt3` -/

theorem p3add_comm (a b : Pt3) : p3add a b = p3add b a := by
  simp [p3add, Prod.ext_iff]
  exact ⟨add_comm _ _, add_comm _ _, add_comm _ _⟩

theorem p3add_assoc (a b c : Pt3) : p3add (p3add a b) c = p3add a (p3add b c) := by
  simp [p3add, Prod.ext_iff]
  exact ⟨add_assoc _ _ _, add_assoc _ _ _, add_assoc _ _ _⟩

theorem p3add_zero_left (a : Pt3) : p3add p3zero a = a := by
  simp [p3add, p3zero]

theorem p3smul_one (a : Pt3) : p3smul 1 a = a := by
  simp [p3smul]

theorem p3smul_zero_scalar (a : Pt3) : p3smul 0 a = p3zero := by
  simp [p3smul, p3zero]

theorem p3smul_p3smul (q r : ℚ) (a : Pt3) : p3smul q (p3smul r a) = p3smul (q * r) a := by
  simp [p3smul, Prod.ext_iff]
  exact ⟨(mul_assoc _ _ _).symm, (mul_assoc _ _ _).symm, (mul_assoc _ _ _).symm⟩

theorem p3smul_p3add (q : ℚ) (a b : Pt3) :
    p3smul q (p3add a b) = p3add (p3smul q a) (p3smul q b) := by
  simp [p3smul, p3add, Prod.ext_iff]
  exact ⟨mul_add _ _ _, mul_add _ _ _, mul_add _ _ _⟩

theorem p3smul_cancel (q : ℚ) (hq : q ≠ 0) (a b : Pt3) (h : p3smul q a = b) :
    a = p3smul (1 / q) b := by
  rw [← h, p3smul_p3smul, one_div, inv_mul_cancel₀ hq, p3smul_one]

theorem p3sum_nil : p3sum [] = p3zero := rfl

theorem p3sum_cons (v : Pt3) (l : List Pt3) : p3sum (v :: l) = p3add v (p3sum l) := by
  simp [p3sum, p3add]

theorem p3sum_perm (l₁ l₂ : List Pt3) (h : List.Perm l₁ l₂) : p3sum l₁ = p3sum l₂ := by
  simp only [p3sum]
  exact Prod.ext ((h.map _).sum_eq) (Prod.ext ((h.map _).sum_eq) ((h.map _).sum_eq))

theorem meanPt3_perm (l₁ l₂ : List Pt3) (h : List.Perm l₁ l₂) : meanPt3 l₁ = meanPt3 l₂ := by
  simp only [meanPt3, h.length_eq, p3sum_perm l₁ l₂ h]

theorem meanPt3_singleton (v : Pt3) : meanPt3 [v] = v := by
  simp only [meanPt3, List.length_singleton, p3sum_cons, p3sum_nil]
  norm_num
  rw [p3add_comm, p3add_zero_left, p3smul_one]

/-! ### Behaviour of `update_avg_pts3d` -/

theorem update_avg_pts3d_nil (avg : List Pt3) (count : List ℚ) :
    update_avg_pts3d avg count [] = (avg, count) := rfl

theorem update_avg_pts3d_cons (avg : List Pt3) (count : List ℚ) (e : ℕ × Pt3)
    (rest : List (ℕ × Pt3)) :
    update_avg_pts3d avg count (e :: rest) =
      update_avg_pts3d
        (avg.set e.1 (p3smul (1 / (count.getD e.1 0 + 1))
          (p3add (p3smul ((count.getD e.1 0 + 1) - 1) (avg.getD e.1 p3zero)) e.2)))
        (count.set e.1 (count.getD e.1 0 + 1)) rest := rfl

theorem contribsFor_nil (t : ℕ) : contribsFor [] t = [] := rfl

theorem contribsFor_cons (e : ℕ × Pt3) (l : List (ℕ × Pt3)) (t : ℕ) :
    contribsFor (e :: l) t =
      if e.1 = t then e.2 :: contribsFor l t else contribsFor l t := by
  simp only [contribsFor, List.filterMap_cons]
  by_cases h : e.1 = t
  · rw [if_pos h, if_pos h]
  · rw [if_neg h, if_neg h]

theorem p3sum_append (l₁ l₂ : List Pt3) :
    p3sum (l₁ ++ l₂) = p3add (p3sum l₁) (p3sum l₂) := by
  simp [p3sum, p3add]

theorem update_avg_pts3d_length (l : List (ℕ × Pt3)) :
    ∀ (avg : List Pt3) (count : List ℚ),
      (update_avg_pts3d avg count l).1.length = avg.length ∧
      (update_avg_pts3d avg count l).2.length = count.length := by
  induction l with
  | nil => intro avg count; exact ⟨rfl, rfl⟩
  | cons e rest ih =>
    intro avg count
    rw [update_avg_pts3d_cons]
    obtain ⟨h1, h2⟩ := ih (avg.set e.1 _) (count.set e.1 _)
    exact ⟨h1.trans (List.length_set ..), h2.trans (List.length_set ..)⟩

theorem update_avg_pts3d_spec (l : List (ℕ × Pt3)) :
    ∀ (avg : List Pt3) (count : List ℚ) (t : ℕ),
      t < avg.length → t < count.length → 0 ≤ count.getD t 0 →
      (update_avg_pts3d avg count l).1.length = avg.length ∧
      (update_avg_pts3d avg count l).2.length = count.length ∧
      (update_avg_pts3d avg count l).2.getD t 0
          = count.getD t 0 + ((contribsFor l t).length : ℚ) ∧
      p3smul ((update_avg_pts3d avg count l).2.getD t 0)
          ((update_avg_pts3d avg count l).1.getD t p3zero)
        = p3add (p3smul (count.getD t 0) (avg.getD t p3zero)) (p3sum (contribsFor l t)) ∧
      (contribsFor l t = [] →
        (update_avg_pts3d avg count l).1.getD t p3zero = avg.getD t p3zero) := by
  induction l with
  | nil =>
    intro avg count t ht1 ht2 h0
    rw [update_avg_pts3d_nil]
    refine ⟨rfl, rfl, ?_, ?_, fun _ => rfl⟩
    · rw [contribsFor_nil]
      simp
    · rw [contribsFor_nil, p3sum_nil, p3add_comm, p3add_zero_left]
  | cons e rest ih =>
    intro avg count t ht1 ht2 h0
    rw [update_avg_pts3d_cons]
    set c1 : ℚ := count.getD e.1 0 + 1 with hc1
    set avg' := avg.set e.1
      (p3smul (1 / c1) (p3add (p3smul (c1 - 1) (avg.getD e.1 p3zero)) e.2)) with havg'
    set count' := count.set e.1 c1 with hcount'
    have hlen1 : avg'.length = avg.length := by rw [havg']; exact List.length_set ..
    have hlen2 : count'.length = count.length := by rw [hcount']; exact List.length_set ..
    by_cases he : e.1 = t
    · -- the head contributes to track t
      subst he
      have hc1t : count'.getD e.1 0 = c1 := getD_set_self count e.1 ht2 c1 0
      have hc1pos : 0 < c1 := by rw [hc1]; linarith
      have havgt : avg'.getD e.1 p3zero
          = p3smul (1 / c1) (p3add (p3smul (c1 - 1) (avg.getD e.1 p3zero)) e.2) :=
        getD_set_self avg e.1 ht1 _ p3zero
      obtain ⟨ih1, ih2, ih3, ih4, _⟩ := ih avg' count' e.1 (hlen1 ▸ ht1) (hlen2 ▸ ht2)
        (by rw [hc1t]; exact le_of_lt hc1pos)
      refine ⟨ih1.trans hlen1, ih2.trans hlen2, ?_, ?_, ?_⟩
      · rw [ih3, hc1t, contribsFor_cons, if_pos rfl, hc1]
        push_cast [List.length_cons]
        ring
      · rw [ih4, hc1t, havgt, p3smul_p3smul, mul_one_div, div_self (ne_of_gt hc1pos),
          p3smul_one, contribsFor_cons, if_pos rfl, p3sum_cons]
        have : c1 - 1 = count.getD e.1 0 := by rw [hc1]; ring
        rw [this, p3add_assoc]
      · intro hemp
        rw [contribsFor_cons, if_pos rfl] at hemp
        exact absurd hemp (List.cons_ne_nil _ _)
    · -- the head touches a different track
      have hct : count'.getD t 0 = count.getD t 0 := getD_set_ne count e.1 t he c1 0
      have havgt : avg'.getD t p3zero = avg.getD t p3zero := getD_set_ne avg e.1 t he _ p3zero
      obtain ⟨ih1, ih2, ih3, ih4, ih5⟩ := ih avg' count' t (hlen1 ▸ ht1) (hlen2 ▸ ht2)
        (by rw [hct]; exact h0)
      rw [contribsFor_cons, if_neg he]
      exact ⟨ih1.trans hlen1, ih2.trans hlen2, by rw [ih3, hct],
        by rw [ih4, hct, havgt], fun hemp => (ih5 hemp).trans havgt⟩

/-! ### Behaviour of the pair loop -/

theorem runPairs_nil {Camera : Type} (lin rpc : Camera → Camera → List Val → List Val → Pt3)
    (cam_model : String) (s : AggState Camera) :
    runPairs lin rpc cam_model [] s = Except.ok s := rfl

theorem runPairs_cons_error {Camera : Type}
    (lin rpc : Camera → Camera → List Val → List Val → Pt3) (cam_model : String)
    (p : ℤ × ℤ) (rest : List (ℤ × ℤ)) (s : AggState Camera) (e : String)
    (hp : processPair lin rpc cam_model s.C s.cameras p.1 p.2 = Except.error e) :
    runPairs lin rpc cam_model (p :: rest) s = Except.error e := by
  rw [runPairs, hp]

theorem runPairs_cons_ok {Camera : Type}
    (lin rpc : Camera → Camera → List Val → List Val → Pt3) (cam_model : String)
    (p : ℤ × ℤ) (rest : List (ℤ × ℤ)) (s : AggState Camera) (l : List (ℕ × Pt3))
    (hp : processPair lin rpc cam_model s.C s.cameras p.1 p.2 = Except.ok l) :
    runPairs lin rpc cam_model (p :: rest) s =
      runPairs lin rpc cam_model rest
        { s with avg := (update_avg_pts3d s.avg s.count l).1,
                 count := (update_avg_pts3d s.avg s.count l).2 } := by
  rw [runPairs, hp]

theorem trackContribs_nil {Camera : Type}
    (lin rpc : Camera → Camera → List Val → List Val → Pt3) (cam_model : String)
    (C : CMat) (cameras : List Camera) (t : ℕ) :
    trackContribs lin rpc cam_model C cameras [] t = [] := rfl

theorem trackContribs_cons {Camera : Type}
    (lin rpc : Camera → Camera → List Val → List Val → Pt3) (cam_model : String)
    (C : CMat) (cameras : List Camera) (p : ℤ × ℤ) (rest : List (ℤ × ℤ)) (t : ℕ) :
    trackContribs lin rpc cam_model C cameras (p :: rest) t =
      contribsFor (pairContribs lin rpc cam_model C cameras p) t
        ++ trackContribs lin rpc cam_model C cameras rest t := by
  simp [trackContribs]

theorem runPairs_spec {Camera : Type}
    (lin rpc : Camera → Camera → List Val → List Val → Pt3) (cam_model : String)
    (pairs : List (ℤ × ℤ)) :
    ∀ (s s' : AggState Camera), runPairs lin rpc cam_model pairs s = Except.ok s' →
      s'.C = s.C ∧ s'.cameras = s.cameras ∧
      s'.avg.length = s.avg.length ∧ s'.count.length = s.count.length ∧
      (∀ t, t < s.avg.length → t < s.count.length → 0 ≤ s.count.getD t 0 →
        s'.count.getD t 0 = s.count.getD t 0
            + ((trackContribs lin rpc cam_model s.C s.cameras pairs t).length : ℚ) ∧
        p3smul (s'.count.getD t 0) (s'.avg.getD t p3zero)
          = p3add (p3smul (s.count.getD t 0) (s.avg.getD t p3zero))
              (p3sum (trackContribs lin rpc cam_model s.C s.cameras pairs t)) ∧
        (trackContribs lin rpc cam_model s.C s.cameras pairs t = [] →
          s'.avg.getD t p3zero = s.avg.getD t p3zero)) := by
  induction pairs with
  | nil =>
    intro s s' h
    rw [runPairs_nil] at h
    cases h
    refine ⟨rfl, rfl, rfl, rfl, fun t ht1 ht2 h0 => ⟨?_, ?_, fun _ => rfl⟩⟩
    · rw [trackContribs_nil]
      simp
    · rw [trackContribs_nil, p3sum_nil, p3add_comm, p3add_zero_left]
  | cons p rest ih =>
    intro s s' h
    cases hp : processPair lin rpc cam_model s.C s.cameras p.1 p.2 with
    | error e => rw [runPairs_cons_error lin rpc cam_model p rest s e hp] at h; cases h
    | ok l =>
      rw [runPairs_cons_ok lin rpc cam_model p rest s l hp] at h
      set s₁ : AggState Camera :=
        { s with avg := (update_avg_pts3d s.avg s.count l).1,
                 count := (update_avg_pts3d s.avg s.count l).2 } with hs₁
      obtain ⟨ihC, ihCam, ihA, ihN, ihT⟩ := ih s₁ s' h
      have hC1 : s₁.C = s.C := rfl
      have hCam1 : s₁.cameras = s.cameras := rfl
      have hpc : pairContribs lin rpc cam_model s.C s.cameras p = l := by
        rw [pairContribs, hp]
      have hulen := update_avg_pts3d_length l s.avg s.count
      have hA1 : s₁.avg.length = s.avg.length := hulen.1
      have hN1 : s₁.count.length = s.count.length := hulen.2
      rw [show s₁.C = s.C from rfl, show s₁.cameras = s.cameras from rfl] at ihT
      refine ⟨ihC.trans hC1, ihCam.trans hCam1, ihA.trans hA1, ihN.trans hN1, ?_⟩
      intro t ht1 ht2 h0
      obtain ⟨_, _, hu3, hu4, hu5⟩ := update_avg_pts3d_spec l s.avg s.count t ht1 ht2 h0
      have h0' : 0 ≤ s₁.count.getD t 0 := by
        rw [show s₁.count = (update_avg_pts3d s.avg s.count l).2 from rfl, hu3]
        positivity
      obtain ⟨ih3, ih4, ih5⟩ := ihT t (hA1 ▸ ht1) (hN1 ▸ ht2) h0'
      have hs₁count : s₁.count = (update_avg_pts3d s.avg s.count l).2 := rfl
      have hs₁avg : s₁.avg = (update_avg_pts3d s.avg s.count l).1 := rfl
      rw [trackContribs_cons, hpc]
      refine ⟨?_, ?_, ?_⟩
      · rw [ih3, hs₁count, hu3, List.length_append]
        push_cast
        ring
      · rw [ih4, hs₁count, hs₁avg, hu4, p3sum_append, p3add_assoc]
      · intro hemp
        obtain ⟨hemp1, hemp2⟩ := List.append_eq_nil.mp hemp
        rw [ih5 hemp2, hs₁avg, hu5 hemp1]

theorem runPairs_forall_of_ok {Camera : Type}
    (lin rpc : Camera → Camera → List Val → List Val → Pt3) (cam_model : String)
    (pairs : List (ℤ × ℤ)) :
    ∀ (s s' : AggState Camera), runPairs lin rpc cam_model pairs s = Except.ok s' →
      ∀ p ∈ pairs, ∃ l, processPair lin rpc cam_model s.C s.cameras p.1 p.2 = Except.ok l := by
  induction pairs with
  | nil => intro s s' _ p hp; cases hp
  | cons q rest ih =>
    intro s s' h p hp
    cases hq : processPair lin rpc cam_model s.C s.cameras q.1 q.2 with
    | error e => rw [runPairs_cons_error lin rpc cam_model q rest s e hq] at h; cases h
    | ok l =>
      rcases List.mem_cons.mp hp with hpq | hpr
      · exact ⟨l, hpq ▸ hq⟩
      · rw [runPairs_cons_ok lin rpc cam_model q rest s l hq] at h
        exact ih _ s' h p hpr

theorem runPairs_ok_of_forall {Camera : Type}
    (lin rpc : Camera → Camera → List Val → List Val → Pt3) (cam_model : String)
    (pairs : List (ℤ × ℤ)) :
    ∀ (s : AggState Camera),
      (∀ p ∈ pairs, ∃ l, processPair lin rpc cam_model s.C s.cameras p.1 p.2 = Except.ok l) →
      ∃ s', runPairs lin rpc cam_model pairs s = Except.ok s' := by
  induction pairs with
  | nil => intro s _; exact ⟨s, rfl⟩
  | cons q rest ih =>
    intro s h
    obtain ⟨l, hl⟩ := h q (List.mem_cons_self q rest)
    rw [runPairs_cons_ok lin rpc cam_model q rest s l hl]
    exact ih _ (fun p hp => h p (List.mem_cons_of_mem q hp))

theorem init_pts3d_ok_elim {Camera : Type}
    (lin rpc : Camera → Camera → List Val → List Val → Pt3)
    (C : CMat) (cameras : List Camera) (cam_model : String)
    (pairs : List (ℤ × ℤ)) (avg : List Pt3)
    (h : init_pts3d lin rpc C cameras cam_model pairs = Except.ok avg) :
    ∃ s', init_pts3d_run lin rpc C cameras cam_model pairs = Except.ok s' ∧ s'.avg = avg := by
  rw [init_pts3d] at h
  cases hr : init_pts3d_run lin rpc C cameras cam_model pairs with
  | error e => rw [hr] at h; cases h
  | ok s' =>
    rw [hr] at h
    exact ⟨s', rfl, by cases h; rfl⟩

/-- central characterization of a successful `init_pts3d` call: the output has
one row per track, and the row of track `t` is the arithmetic mean of the
per-pair triangulated estimates of the guard-passing pairs that co-observe
`t` (the zero sentinel when there is none). -/
theorem init_pts3d_characterization {Camera : Type}
    (lin rpc : Camera → Camera → List Val → List Val → Pt3)
    (C : CMat) (cameras : List Camera) (cam_model : String)
    (pairs : List (ℤ × ℤ)) (avg : List Pt3)
    (h : init_pts3d lin rpc C cameras cam_model pairs = Except.ok avg) :
    avg.length = C.n_pts ∧
    ∀ t, t < C.n_pts →
      avg.getD t p3zero = meanPt3 (trackContribs lin rpc cam_model C cameras pairs t) := by
  obtain ⟨s', hr, havg⟩ := init_pts3d_ok_elim lin rpc C cameras cam_model pairs avg h
  rw [init_pts3d_run] at hr
  obtain ⟨_, _, hA, _, hT⟩ := runPairs_spec lin rpc cam_model pairs (initState C cameras) s' hr
  have hAlen : avg.length = C.n_pts := by
    rw [← havg, hA, initState, List.length_replicate]
  refine ⟨hAlen, fun t ht => ?_⟩
  have ht1 : t < (initState C cameras : AggState Camera).avg.length := by
    rw [initState, List.length_replicate]; exact ht
  have ht2 : t < (initState C cameras : AggState Camera).count.length := by
    rw [initState, List.length_replicate]; exact ht
  have hc0 : (initState C cameras : AggState Camera).count.getD t 0 = 0 :=
    getD_replicate C.n_pts t ht (0 : ℚ) 0
  have ha0 : (initState C cameras : AggState Camera).avg.getD t p3zero = p3zero :=
    getD_replicate C.n_pts t ht p3zero p3zero
  obtain ⟨h3, h4, h5⟩ := hT t ht1 ht2 (le_of_eq hc0.symm)
  rw [show (initState C cameras : AggState Camera).C = C from rfl,
    show (initState C cameras : AggState Camera).cameras = cameras from rfl] at h3 h4 h5
  set contribs := trackContribs lin rpc cam_model C cameras pairs t with hcdef
  by_cases hemp : contribs.length = 0
  · have : contribs = [] := List.length_eq_zero.mp hemp
    rw [← havg, h5 this, ha0, meanPt3, hemp, if_pos rfl]
  · have hlq : ((contribs.length : ℚ)) ≠ 0 := Nat.cast_ne_zero.mpr hemp
    have hcnt : s'.count.getD t 0 = (contribs.length : ℚ) := by
      rw [h3, hc0, zero_add]
    rw [hcnt, hc0, ha0, p3smul_zero_scalar, p3add_zero_left] at h4
    rw [← havg, p3smul_cancel _ hlq _ _ h4, meanPt3, if_neg hemp]

/-! ### Concrete instances used by the witnesses -/

/-- correspondence matrix with 2 cameras and 2 tracks: track 0 observed by
both cameras, track 1 only by camera 0. -/
def Cex2 : CMat :=
  { n_cam := 2, n_pts := 2,
    entry := fun r t =>
      match r, t with
      | 0, 0 => some 1
      | 1, 0 => some 1
      | 2, 0 => some 3
      | 3, 0 => some 4
      | 0, 1 => some 2
      | 1, 1 => some 2
      | _, _ => none }

/-- correspondence matrix with 3 cameras and 1 track observed by all three. -/
def Cex3 : CMat :=
  { n_cam := 3, n_pts := 1,
    entry := fun r t =>
      match r, t with
      | 0, 0 => some 1
      | 1, 0 => some 1
      | 2, 0 => some 2
      | 3, 0 => some 2
      | 4, 0 => some 3
      | 5, 0 => some 3
      | _, _ => none }

/-- concrete stand-in for the linear pairwise triangulator, over cameras
labelled by naturals. -/
def linEx : ℕ → ℕ → List Val → List Val → Pt3 :=
  fun a b _ _ => ((a : ℚ) + (b : ℚ), 0, 0)

/-- concrete stand-in for the rpc pairwise triangulator, distinguishable from
`linEx`. -/
def rpcEx : ℕ → ℕ → List Val → List Val → Pt3 :=
  fun a b _ _ => ((a : ℚ) + 10, (b : ℚ) + 10, 9)

/-! ### Claims about `init_pts3d` -/

/-- C1: for every correspondence matrix, camera list and pair list, a
successful `init_pts3d` call gives each track the arithmetic mean of the
per-pair triangulated estimates over exactly the processed pairs that
co-observe that track (every contribution weighted equally); the running-mean
update of the source maintains exactly this mean. -/
theorem init_pts3d_computes_track_means {Camera : Type}
    (lin rpc : Camera → Camera → List Val → List Val → Pt3)
    (C : CMat) (cameras : List Camera) (cam_model : String)
    (pairs : List (ℤ × ℤ)) (avg : List Pt3) (t : ℕ)
    (h : init_pts3d lin rpc C cameras cam_model pairs = Except.ok avg)
    (ht : t < C.n_pts) :
    avg.getD t p3zero = meanPt3 (trackContribs lin rpc cam_model C cameras pairs t) :=
  (init_pts3d_characterization lin rpc C cameras cam_model pairs avg h).2 t ht

theorem init_pts3d_computes_track_means_witness :
    ([((35 : ℚ), (0 : ℚ), (0 : ℚ))] : List Pt3).getD 0 p3zero
      = meanPt3 (trackContribs linEx rpcEx "affine" Cex3 [10, 20, 30] [(0, 1), (0, 2)] 0) :=
  init_pts3d_computes_track_means linEx rpcEx Cex3 [10, 20, 30] "affine" [(0, 1), (0, 2)]
    [((35 : ℚ), (0 : ℚ), (0 : ℚ))] 0 (by with_unfolding_all rfl) (by decide)

/-- C2: for a fixed correspondence matrix, camera list and camera model, a
permutation of the pair list leaves a successful `init_pts3d` result exactly
unchanged (per-pair triangulated values being exact rationals here). -/
theorem init_pts3d_order_independent {Camera : Type}
    (lin rpc : Camera → Camera → List Val → List Val → Pt3)
    (C : CMat) (cameras : List Camera) (cam_model : String)
    (pairs₁ pairs₂ : List (ℤ × ℤ)) (avg : List Pt3)
    (hperm : List.Perm pairs₁ pairs₂)
    (h : init_pts3d lin rpc C cameras cam_model pairs₁ = Except.ok avg) :
    init_pts3d lin rpc C cameras cam_model pairs₂ = Except.ok avg := by
  obtain ⟨s₁', hr₁, havg₁⟩ := init_pts3d_ok_elim lin rpc C cameras cam_model pairs₁ avg h
  rw [init_pts3d_run] at hr₁
  have hall₁ := runPairs_forall_of_ok lin rpc cam_model pairs₁ (initState C cameras) s₁' hr₁
  have hall₂ : ∀ p ∈ pairs₂, ∃ l,
      processPair lin rpc cam_model (initState C cameras : AggState Camera).C
        (initState C cameras : AggState Camera).cameras p.1 p.2 = Except.ok l :=
    fun p hp => hall₁ p (hperm.mem_iff.mpr hp)
  obtain ⟨s₂', hr₂⟩ := runPairs_ok_of_forall lin rpc cam_model pairs₂ (initState C cameras) hall₂
  have h₂ : init_pts3d lin rpc C cameras cam_model pairs₂ = Except.ok s₂'.avg := by
    rw [init_pts3d, init_pts3d_run, hr₂]
    rfl
  obtain ⟨hlen₂, hent₂⟩ :=
    init_pts3d_characterization lin rpc C cameras cam_model pairs₂ s₂'.avg h₂
  obtain ⟨hlen₁, hent₁⟩ := init_pts3d_characterization lin rpc C cameras cam_model pairs₁ avg h
  have hcperm : ∀ t, List.Perm (trackContribs lin rpc cam_model C cameras pairs₁ t)
      (trackContribs lin rpc cam_model C cameras pairs₂ t) := by
    intro t
    simp only [trackContribs]
    exact hperm.flatMap_right _
  have heq : s₂'.avg = avg := by
    refine list_eq_of_getD p3zero _ _ (by rw [hlen₂, hlen₁]) (fun t ht => ?_)
    rw [hlen₂] at ht
    rw [hent₂ t ht, hent₁ t ht, meanPt3_perm _ _ (hcperm t)]
  rw [h₂, heq]

theorem init_pts3d_order_independent_witness :
    init_pts3d linEx rpcEx Cex3 [10, 20, 30] "affine" [(0, 2), (0, 1)]
      = Except.ok [((35 : ℚ), (0 : ℚ), (0 : ℚ))] :=
  init_pts3d_order_independent linEx rpcEx Cex3 [10, 20, 30] "affine"
    [(0, 1), (0, 2)] [(0, 2), (0, 1)] [((35 : ℚ), (0 : ℚ), (0 : ℚ))]
    (List.Perm.swap (0, 2) (0, 1) []) (by with_unfolding_all rfl)

/-- C7: `init_pts3d` on the empty pair list returns the all-zero array of
shape (n_tracks, 3) without raising; in general every successful call returns
one row per track, and a track to which zero pairs contribute keeps exactly
the zero-vector sentinel. -/
theorem init_pts3d_zero_sentinel {Camera : Type}
    (lin rpc : Camera → Camera → List Val → List Val → Pt3)
    (C : CMat) (cameras : List Camera) (cam_model : String) :
    init_pts3d lin rpc C cameras cam_model [] = Except.ok (List.replicate C.n_pts p3zero) ∧
    (∀ pairs avg, init_pts3d lin rpc C cameras cam_model pairs = Except.ok avg →
      avg.length = C.n_pts) ∧
    (∀ pairs avg t, init_pts3d lin rpc C cameras cam_model pairs = Except.ok avg →
      t < C.n_pts → trackContribs lin rpc cam_model C cameras pairs t = [] →
      avg.getD t p3zero = p3zero) := by
  refine ⟨rfl, ?_, ?_⟩
  · intro pairs avg h
    exact (init_pts3d_characterization lin rpc C cameras cam_model pairs avg h).1
  · intro pairs avg t h ht hc
    rw [(init_pts3d_characterization lin rpc C cameras cam_model pairs avg h).2 t ht, hc]
    rfl

theorem init_pts3d_zero_sentinel_witness :
    init_pts3d linEx rpcEx Cex2 [5, 6] "affine" [] = Except.ok (List.replicate 2 p3zero) ∧
    ([((11 : ℚ), (0 : ℚ), (0 : ℚ)), p3zero] : List Pt3).getD 1 p3zero = p3zero := by
  refine ⟨(init_pts3d_zero_sentinel linEx rpcEx Cex2 [5, 6] "affine").1, ?_⟩
  exact (init_pts3d_zero_sentinel linEx rpcEx Cex2 [5, 6] "affine").2.2 [(0, 1)]
    [((11 : ℚ), (0 : ℚ), (0 : ℚ)), p3zero] 1 (by with_unfolding_all rfl) (by decide)
    (by with_unfolding_all rfl)

/-- C8: a track that receives exactly one contributing pair ends up with
exactly that pair's triangulated point (the running mean with count 1 is the
identity on the new value). -/
theorem init_pts3d_single_pair_identity {Camera : Type}
    (lin rpc : Camera → Camera → List Val → List Val → Pt3)
    (C : CMat) (cameras : List Camera) (cam_model : String)
    (pairs : List (ℤ × ℤ)) (avg : List Pt3) (t : ℕ) (v : Pt3)
    (h : init_pts3d lin rpc C cameras cam_model pairs = Except.ok avg)
    (ht : t < C.n_pts)
    (hc : trackContribs lin rpc cam_model C cameras pairs t = [v]) :
    avg.getD t p3zero = v := by
  rw [(init_pts3d_characterization lin rpc C cameras cam_model pairs avg h).2 t ht, hc,
    meanPt3_singleton]

theorem init_pts3d_single_pair_identity_witness :
    ([((11 : ℚ), (0 : ℚ), (0 : ℚ)), p3zero] : List Pt3).getD 0 p3zero
      = ((11 : ℚ), (0 : ℚ), (0 : ℚ)) :=
  init_pts3d_single_pair_identity linEx rpcEx Cex2 [5, 6] "affine" [(0, 1)]
    [((11 : ℚ), (0 : ℚ), (0 : ℚ)), p3zero] 0 ((11 : ℚ), (0 : ℚ), (0 : ℚ))
    (by with_unfolding_all rfl) (by decide) (by with_unfolding_all rfl)

/-- C9: `init_pts3d` only reads the correspondence matrix and the camera
list: the state coming out of the pair loop still holds exactly the input `C`
(and camera list); the mutated accumulators `avg_pts3d` and `n_pairs` are the
freshly allocated ones of `initState`. -/
theorem init_pts3d_reads_C_only {Camera : Type}
    (lin rpc : Camera → Camera → List Val → List Val → Pt3)
    (C : CMat) (cameras : List Camera) (cam_model : String)
    (pairs : List (ℤ × ℤ)) (s' : AggState Camera)
    (h : init_pts3d_run lin rpc C cameras cam_model pairs = Except.ok s') :
    s'.C = C ∧ s'.cameras = cameras := by
  rw [init_pts3d_run] at h
  obtain ⟨h1, h2, _, _, _⟩ := runPairs_spec lin rpc cam_model pairs (initState C cameras) s' h
  exact ⟨h1, h2⟩

/-- the final loop state of `init_pts3d_run linEx rpcEx Cex2 [5, 6] "affine"
[(0, 1)]`, written out. -/
def stateEx : AggState ℕ :=
  { C := Cex2, cameras := [5, 6],
    avg := [((11 : ℚ), (0 : ℚ), (0 : ℚ)), p3zero], count := [1, 0] }

theorem init_pts3d_reads_C_only_witness :
    stateEx.C = Cex2 ∧ stateEx.cameras = [5, 6] :=
  init_pts3d_reads_C_only linEx rpcEx Cex2 [5, 6] "affine" [(0, 1)] stateEx
    (by with_unfolding_all rfl)

/-! ### Camera-model dispatch (C3) -/

theorem processPair_cam_model_not_linear {Camera : Type}
    (lin rpc : Camera → Camera → List Val → List Val → Pt3) (cam_model : String)
    (C : CMat) (cameras : List Camera) (ci cj : ℤ)
    (h1 : cam_model ≠ "affine") (h2 : cam_model ≠ "perspective") :
    processPair lin rpc cam_model C cameras ci cj
      = processPair lin rpc "rpc" C cameras ci cj := by
  rw [processPair, processPair]
  have hcm : (cam_model = "affine" ∨ cam_model = "perspective") = False :=
    eq_false (by rintro (h | h) <;> [exact h1 h; exact h2 h])
  have hrpc : (("rpc" : String) = "affine" ∨ ("rpc" : String) = "perspective") = False :=
    eq_false (by decide)
  simp only [hcm, hrpc]

theorem runPairs_cam_model_not_linear {Camera : Type}
    (lin rpc : Camera → Camera → List Val → List Val → Pt3) (cam_model : String)
    (pairs : List (ℤ × ℤ))
    (h1 : cam_model ≠ "affine") (h2 : cam_model ≠ "perspective") :
    ∀ s : AggState Camera,
      runPairs lin rpc cam_model pairs s = runPairs lin rpc "rpc" pairs s := by
  induction pairs with
  | nil => intro s; rfl
  | cons p rest ih =>
    intro s
    rw [runPairs, runPairs,
      processPair_cam_model_not_linear lin rpc cam_model s.C s.cameras p.1 p.2 h1 h2]
    cases processPair lin rpc "rpc" s.C s.cameras p.1 p.2 with
    | error e => rfl
    | ok l => exact ih _

/-- C3 (amended): `init_pts3d` performs no validation of `cam_model`: any
value outside the two recognized linear options — including arbitrary invalid
strings — silently selects the rpc triangulation path, exactly as the literal
value "rpc" does, and the computation proceeds. -/
theorem init_pts3d_unknown_cam_model_uses_rpc {Camera : Type}
    (lin rpc : Camera → Camera → List Val → List Val → Pt3)
    (C : CMat) (cameras : List Camera) (cam_model : String)
    (pairs : List (ℤ × ℤ))
    (h1 : cam_model ≠ "affine") (h2 : cam_model ≠ "perspective") :
    init_pts3d lin rpc C cameras cam_model pairs
      = init_pts3d lin rpc C cameras "rpc" pairs := by
  rw [init_pts3d, init_pts3d, init_pts3d_run, init_pts3d_run,
    runPairs_cam_model_not_linear lin rpc cam_model pairs h1 h2]

theorem init_pts3d_unknown_cam_model_uses_rpc_witness :
    init_pts3d linEx rpcEx Cex2 [5, 6] "projective" [(0, 1)]
      = init_pts3d linEx rpcEx Cex2 [5, 6] "rpc" [(0, 1)] :=
  init_pts3d_unknown_cam_model_uses_rpc linEx rpcEx Cex2 [5, 6] "projective" [(0, 1)]
    (by decide) (by decide)

/-- C3 (counterexample to the claim as stated): "projective" is outside the
three recognized options, yet `init_pts3d` does not fail fast with an
invalid-argument signal — it proceeds and returns the value computed by the
rpc triangulation backend (`rpcEx 5 6 = (15, 16, 9)` here). -/
theorem init_pts3d_no_fail_fast :
    ("projective" ≠ "affine" ∧ "projective" ≠ "perspective" ∧ "projective" ≠ "rpc") ∧
    init_pts3d linEx rpcEx Cex2 [5, 6] "projective" [(0, 1)]
      = Except.ok [((15 : ℚ), (16 : ℚ), (9 : ℚ)), p3zero] :=
  ⟨by decide, by with_unfolding_all rfl⟩

/-! ### Out-of-range pairs (C6) -/

theorem processPair_out_of_range {Camera : Type}
    (lin rpc : Camera → Camera → List Val → List Val → Pt3) (cam_model : String)
    (C : CMat) (cameras : List Camera) (ci cj : ℤ)
    (h : (C.n_cam : ℤ) ≤ ci ∨ (C.n_cam : ℤ) ≤ cj) :
    processPair lin rpc cam_model C cameras ci cj = Except.ok [] := by
  have hguard : ¬ (pairInRange C.n_cam ci cj = true) := by
    simp only [pairInRange, Bool.and_eq_true, decide_eq_true_eq]
    omega
  rw [processPair, if_neg hguard]

theorem runPairs_splice_skipped {Camera : Type}
    (lin rpc : Camera → Camera → List Val → List Val → Pt3) (cam_model : String)
    (ci cj : ℤ) (l₂ : List (ℤ × ℤ)) (l₁ : List (ℤ × ℤ)) :
    ∀ s : AggState Camera,
      processPair lin rpc cam_model s.C s.cameras ci cj = Except.ok [] →
      runPairs lin rpc cam_model (l₁ ++ (ci, cj) :: l₂) s
        = runPairs lin rpc cam_model (l₁ ++ l₂) s := by
  induction l₁ with
  | nil =>
    intro s hskip
    rw [List.nil_append, List.nil_append,
      runPairs_cons_ok lin rpc cam_model (ci, cj) l₂ s [] hskip]
    rfl
  | cons q rest ih =>
    intro s hskip
    rw [List.cons_append, List.cons_append]
    cases hq : processPair lin rpc cam_model s.C s.cameras q.1 q.2 with
    | error e =>
      rw [runPairs_cons_error lin rpc cam_model q (rest ++ (ci, cj) :: l₂) s e hq,
        runPairs_cons_error lin rpc cam_model q (rest ++ l₂) s e hq]
    | ok l =>
      rw [runPairs_cons_ok lin rpc cam_model q (rest ++ (ci, cj) :: l₂) s l hq,
        runPairs_cons_ok lin rpc cam_model q (rest ++ l₂) s l hq]
      exact ih _ hskip

/-- C6: a pair with a camera index at or above `n_cam` is skipped entirely:
`init_pts3d` on a pair list containing it (anywhere) returns exactly the same
outcome — same result, same raising behaviour — as on the list with that pair
removed; every track's entry is unchanged. -/
theorem init_pts3d_out_of_range_pair_skipped {Camera : Type}
    (lin rpc : Camera → Camera → List Val → List Val → Pt3)
    (C : CMat) (cameras : List Camera) (cam_model : String)
    (l₁ l₂ : List (ℤ × ℤ)) (ci cj : ℤ)
    (h : (C.n_cam : ℤ) ≤ ci ∨ (C.n_cam : ℤ) ≤ cj) :
    init_pts3d lin rpc C cameras cam_model (l₁ ++ (ci, cj) :: l₂)
      = init_pts3d lin rpc C cameras cam_model (l₁ ++ l₂) := by
  rw [init_pts3d, init_pts3d, init_pts3d_run, init_pts3d_run,
    runPairs_splice_skipped lin rpc cam_model ci cj l₂ l₁ (initState C cameras)
      (processPair_out_of_range lin rpc cam_model C cameras ci cj h)]

theorem init_pts3d_out_of_range_pair_skipped_witness :
    init_pts3d linEx rpcEx Cex2 [5, 6] "affine" ([] ++ ((2 : ℤ), (1 : ℤ)) :: [(0, 1)])
      = init_pts3d linEx rpcEx Cex2 [5, 6] "affine" ([] ++ [(0, 1)]) :=
  init_pts3d_out_of_range_pair_skipped linEx rpcEx Cex2 [5, 6] "affine" [] [(0, 1)] 2 1
    (by decide)

/-! ### Negative camera indices (C10) -/

theorem pyIdx_neg (n : ℕ) (i : ℤ) (h1 : -(n : ℤ) ≤ i) (h2 : i < 0) :
    pyIdx n i = some (i + (n : ℤ)).toNat := by
  rw [pyIdx, if_neg (by omega), if_pos (by omega)]

theorem pyIdx_nonneg (n : ℕ) (i : ℤ) (h1 : 0 ≤ i) (h2 : i < (n : ℤ)) :
    pyIdx n i = some i.toNat := by
  rw [pyIdx, if_pos h1, if_pos h2]

theorem pyIdx_neg_wrap (n : ℕ) (i : ℤ) (h1 : -(n : ℤ) ≤ i) (h2 : i < 0) :
    pyIdx n i = pyIdx n (i + (n : ℤ)) := by
  rw [pyIdx_neg n i h1 h2, pyIdx_nonneg n (i + (n : ℤ)) (by omega) (by omega)]

theorem pySliceEnd_neg_wrap (n : ℕ) (i : ℤ) (h1 : -(n : ℤ) ≤ i) (h2 : i < 0) :
    pySliceEnd n i = pySliceEnd n (i + (n : ℤ)) := by
  rw [pySliceEnd, pySliceEnd, if_pos h2, if_neg (by omega)]
  omega

theorem pyGetList_neg_wrap {α : Type} (l : List α) (i : ℤ)
    (h1 : -(l.length : ℤ) ≤ i) (h2 : i < 0) :
    pyGetList l i = pyGetList l (i + (l.length : ℤ)) := by
  rw [pyGetList, pyGetList, pyIdx_neg_wrap l.length i h1 h2]

theorem processPair_neg_wrap_left {Camera : Type}
    (lin rpc : Camera → Camera → List Val → List Val → Pt3) (cam_model : String)
    (C : CMat) (cameras : List Camera) (ci cj : ℤ)
    (hlen : cameras.length = C.n_cam)
    (h1 : -(C.n_cam : ℤ) ≤ ci) (h2 : ci < -1) :
    processPair lin rpc cam_model C cameras ci cj
      = processPair lin rpc cam_model C cameras (ci + (C.n_cam : ℤ)) cj := by
  have hg : pairInRange C.n_cam ci cj = pairInRange C.n_cam (ci + (C.n_cam : ℤ)) cj := by
    simp only [pairInRange]
    rw [decide_eq_true (show ci < (C.n_cam : ℤ) by omega),
      decide_eq_true (show ci + (C.n_cam : ℤ) < (C.n_cam : ℤ) by omega)]
  have hm : pyIdx C.n_cam ci = pyIdx C.n_cam (ci + (C.n_cam : ℤ)) :=
    pyIdx_neg_wrap C.n_cam ci h1 (by omega)
  have e1 : pySliceEnd (2 * C.n_cam) (2 * ci)
      = pySliceEnd (2 * C.n_cam) (2 * (ci + (C.n_cam : ℤ))) := by
    rw [pySliceEnd_neg_wrap (2 * C.n_cam) (2 * ci) (by push_cast; omega) (by omega)]
    congr 1
    push_cast
    ring
  have e2 : pySliceEnd (2 * C.n_cam) (2 * ci + 2)
      = pySliceEnd (2 * C.n_cam) (2 * (ci + (C.n_cam : ℤ)) + 2) := by
    rw [pySliceEnd_neg_wrap (2 * C.n_cam) (2 * ci + 2) (by push_cast; omega) (by omega)]
    congr 1
    push_cast
    ring
  have hsl : pySliceIdx (2 * C.n_cam) (2 * ci) (2 * ci + 2)
      = pySliceIdx (2 * C.n_cam) (2 * (ci + (C.n_cam : ℤ))) (2 * (ci + (C.n_cam : ℤ)) + 2) := by
    rw [pySliceIdx, pySliceIdx, e1, e2]
  have hc : pyGetList cameras ci = pyGetList cameras (ci + (C.n_cam : ℤ)) := by
    rw [pyGetList_neg_wrap cameras ci (by rw [hlen]; exact h1) (by omega), hlen]
  rw [processPair, processPair, hg, hm, hsl, hc]

theorem runPairs_cons_congr {Camera : Type}
    (lin rpc : Camera → Camera → List Val → List Val → Pt3) (cam_model : String)
    (p q : ℤ × ℤ) (rest : List (ℤ × ℤ)) (s : AggState Camera)
    (h : processPair lin rpc cam_model s.C s.cameras p.1 p.2
        = processPair lin rpc cam_model s.C s.cameras q.1 q.2) :
    runPairs lin rpc cam_model (p :: rest) s = runPairs lin rpc cam_model (q :: rest) s := by
  rw [runPairs, runPairs, h]

/-- C10: the range guard `c_i < n_cam and c_j < n_cam` checks the upper bound
only, so a pair with a negative camera index is not skipped: it passes the
guard and the negative index is resolved with Python's wrap-around semantics —
the whole call behaves exactly as with the wrapped index `c_i + n_cam`
(stated here for `c_i ≤ -2`; the camera list has one entry per camera). -/
theorem init_pts3d_negative_index_not_skipped {Camera : Type}
    (lin rpc : Camera → Camera → List Val → List Val → Pt3)
    (C : CMat) (cameras : List Camera) (cam_model : String)
    (ci cj : ℤ) (rest : List (ℤ × ℤ))
    (hlen : cameras.length = C.n_cam)
    (h1 : -(C.n_cam : ℤ) ≤ ci) (h2 : ci < -1) :
    (cj < (C.n_cam : ℤ) → pairInRange C.n_cam ci cj = true) ∧
    init_pts3d lin rpc C cameras cam_model ((ci, cj) :: rest)
      = init_pts3d lin rpc C cameras cam_model ((ci + (C.n_cam : ℤ), cj) :: rest) := by
  constructor
  · intro hcj
    simp only [pairInRange, Bool.and_eq_true, decide_eq_true_eq]
    omega
  · rw [init_pts3d, init_pts3d, init_pts3d_run, init_pts3d_run]
    exact congrArg _ (runPairs_cons_congr lin rpc cam_model (ci, cj)
      (ci + (C.n_cam : ℤ), cj) rest (initState C cameras)
      (processPair_neg_wrap_left lin rpc cam_model C cameras ci cj hlen h1 h2))

theorem init_pts3d_negative_index_not_skipped_witness :
    ((1 : ℤ) < ((2 : ℕ) : ℤ) → pairInRange 2 (-2) 1 = true) ∧
    init_pts3d linEx rpcEx Cex2 [5, 6] "affine" [((-2 : ℤ), (1 : ℤ))]
      = init_pts3d linEx rpcEx Cex2 [5, 6] "affine" [((-2 : ℤ) + ((2 : ℕ) : ℤ), (1 : ℤ))] :=
  init_pts3d_negative_index_not_skipped linEx rpcEx Cex2 [5, 6] "affine" (-2) 1 []
    (by decide) (by decide) (by decide)

/-! ### The multiview triangulator (C4, C5)

`linear_triangulation_single_pt_multiview` and `init_pts3d_multiview` are
embedded below.  `np.linalg.svd` is an external numerical routine; only its
interface is relevant here: applied with `full_matrices=False` to a stack of
shape (M, 2, 4) it decomposes each 2x4 block separately (batched svd), its
`vh` factor being again a stack of M blocks of shape 2x4.  It is modelled by
an abstract per-block oracle `svdVh`. -/

/-- scaling of a row vector, `x * P[k, :]`. -/
def vscale (a : ℚ) (v : List ℚ) : List ℚ := v.map (fun x => a * x)

/-- componentwise difference of two row vectors. -/
def vsub (v w : List ℚ) : List ℚ := List.zipWith (fun x y => x - y) v w

/-- the helper `define_row(pts2d, i, P)` of the source: the LIST of the two rows
contributed by camera `i`, `[pts2d[2i] * P[2,:] - P[0,:],
pts2d[2i+1] * P[2,:] - P[1,:]]` (a 2x4 block, not two loose rows). -/
def define_row (pts2d : List ℚ) (i : ℕ) (P : List (List ℚ)) : List (List ℚ) :=
  [vsub (vscale (pts2d.getD (2 * i) 0) (P.getD 2 [])) (P.getD 0 []),
   vsub (vscale (pts2d.getD (2 * i + 1) 0) (P.getD 2 [])) (P.getD 1 [])]

/-- the array `A = np.array([define_row(pts2d, i, P) for i, P in enumerate(...)])`: one
2x4 block per camera, hence an array of shape (M, 2, 4) — not the (2M, 4)
stacked matrix announced by the docstring ("A will have shape 2Mx4N"). -/
def buildA (pts2d : List ℚ) (projection_matrices : List (List (List ℚ))) :
    List (List (List ℚ)) :=
  projection_matrices.enum.map (fun ip => define_row pts2d ip.1 ip.2)

/-- the operation `linear_triangulation_single_pt_multiview(pts2d, projection_matrices)`:
with `A` of shape (M, 2, 4), `u, s, vh = np.linalg.svd(A, full_matrices=False)`
gives `vh` of shape (M, 2, 4) (one batched svd per block, the `svdVh` oracle),
`vh.T` has shape (4, 2, M) with `vh.T[a, b, m] = vh[m][b][a]`, so
`pt_3d = vh.T[:3, -1] / vh.T[-1, -1]` is the (3, M) array with entry
`vh[m][1][a] / vh[m][1][3]` at (a, m) — an array of M column candidates, not
one 3d point. -/
def linear_triangulation_single_pt_multiview
    (svdVh : List (List ℚ) → List (List ℚ))
    (pts2d : List ℚ) (projection_matrices : List (List (List ℚ))) : List (List ℚ) :=
  let A := buildA pts2d projection_matrices
  let vh := A.map svdVh
  (List.range 3).map (fun a =>
    vh.map (fun blk => (blk.getD 1 []).getD a 0 / (blk.getD 1 []).getD 3 0))

/-- the value of `np.where` applied to a one-dimensional boolean mask returns a TUPLE
holding one index array; the source iterates over this tuple (missing the
`[0]` that `init_pts3d` uses), so the iteration yields the whole index array
once. -/
def np_where_tuple (mask : List Bool) : List (List ℕ) :=
  [(List.range mask.length).filter (fun i => mask.getD i false)]

/-- indexing a Python list with a numpy integer index array
(`cameras[cam_idx]` where `cam_idx` is the array yielded by the tuple
iteration): TypeError — except for a size-1 array, which the numpy versions
contemporary with this source still accept as a scalar index (deprecated). -/
def pyListGetByArray {α : Type} (l : List α) (idx : List ℕ) : Except String α :=
  match idx with
  | [i] =>
    match l.get? i with
    | some c => Except.ok c
    | none => Except.error ("IndexError: list index out of range")
  | _ => Except.error ("TypeError: only integer scalar arrays can be converted to a scalar index")

/-- the assignment `pts_3d[pt_idx, :] = linear_triangulation_single_pt_multiview(...)`:
the right-hand side is a two-dimensional (3, M) array, and numpy cannot
broadcast a two-dimensional value into the one-dimensional length-3 row, so
the assignment raises for every M. -/
def npAssignRow3 (_r : List (List ℚ)) : Except String (List ℚ) :=
  Except.error ("ValueError: could not broadcast input array")

/-- the second public operation `init_pts3d_multiview(C, cameras)`: for each track, build
`projection_matrices = [cameras[cam_idx] for cam_idx in np.where(mask_col)]`
(iterating over the np.where TUPLE), extract the observed coordinates
`pts2d = C[true_where_obs[:, pt_idx], pt_idx]`, triangulate and store into
row `pt_idx` of `pts_3d`; the first raised exception aborts the loop. -/
def init_pts3d_multiview (svdVh : List (List ℚ) → List (List ℚ))
    (C : CMat) (cameras : List (List (List ℚ))) : Except String (List (List ℚ)) :=
  (List.range C.n_pts).mapM (fun pt_idx => do
    let xmask := (List.range C.n_cam).map (fun k => maskAt C k pt_idx)
    let projection_matrices ← (np_where_tuple xmask).mapM
      (fun cam_idx => pyListGetByArray cameras cam_idx)
    let pts2d := ((List.range (2 * C.n_cam)).filter
      (fun r => (C.entry r pt_idx).isSome)).map (fun r => (C.entry r pt_idx).getD 0)
    npAssignRow3 (linear_triangulation_single_pt_multiview svdVh pts2d projection_matrices))

/-- concrete inputs for one track seen by two cameras (M = 2): four interleaved
pixel coordinates and two 3x4 projection matrices. -/
def pts2dEx : List ℚ := [1, 2, 3, 4]

def PsEx : List (List (List ℚ)) :=
  [[[1, 0, 0, 0], [0, 1, 0, 0], [0, 0, 1, 1]],
   [[0, 1, 0, 0], [0, 0, 1, 0], [1, 0, 0, 2]]]

/-- shape-preserving stand-in for the external batched-svd oracle. -/
def svdEx : List (List ℚ) → List (List ℚ) := fun blk => blk

/-- C4 (counterexample): for M = 2 observing cameras the coefficient array
`A` built by `linear_triangulation_single_pt_multiview` has M = 2 top-level
entries, each a 2x4 block — the shape (M, 2, 4), not the claimed/documented
2Mx4 = 4x4 stacked matrix — and the returned value is a 3x2 array (one column
per camera), not a single 3d point normalized from the smallest singular
vector of the stacked system. -/
theorem linear_triangulation_single_pt_multiview_wrong_shape :
    (buildA pts2dEx PsEx).length = 2 ∧
    ¬ (buildA pts2dEx PsEx).length = 2 * PsEx.length ∧
    (buildA pts2dEx PsEx).map List.length = [2, 2] ∧
    (linear_triangulation_single_pt_multiview svdEx pts2dEx PsEx).map List.length
      = [2, 2, 2] := by
  refine ⟨by with_unfolding_all rfl, by with_unfolding_all decide,
    by with_unfolding_all rfl, by with_unfolding_all rfl⟩

/-- correspondence matrix with 2 cameras and 1 track observed in both. -/
def Cex5 : CMat :=
  { n_cam := 2, n_pts := 1,
    entry := fun r t =>
      match r, t with
      | 0, 0 => some 1
      | 1, 0 => some 1
      | 2, 0 => some 3
      | 3, 0 => some 4
      | _, _ => none }

/-- C5 (counterexample): on a correspondence matrix whose single track is
observed by both cameras, `init_pts3d_multiview` raises TypeError (the
np.where tuple is iterated, so the whole two-element index array is used as a
single list index) instead of selecting the two projection matrices and
returning an (n_tracks, 3) array. -/
theorem init_pts3d_multiview_raises :
    init_pts3d_multiview svdEx Cex5 PsEx
      = Except.error ("TypeError: only integer scalar arrays can be converted to a scalar index") := by
  with_unfolding_all rfl
